import Mathlib

/-!
# Verification of the jpi-parser binary record decoder and header parser

Shallow embedding of `src/src/data.rs` and `src/src/headers.rs` of the
`rbreslow/jpi-parser` repository.  Bytes are modelled as `Nat` (values `< 256`
in any real stream), Rust `i16` values as `Int` with explicit wrapping at
`2^16`, and fallible operations (nom errors, `panic!`, `assert!`,
`unimplemented!`) as `Except DecodeErr`.

The functions `num_engines` and `num_cyls` are imported by `data.rs` from
`crate::headers`, but their definitions are not present under `src/`.
Modelled from the spec: the spec (§3, §9) treats `num_engines` as an opaque
function of `ConfigInfo` with values in `{1, 2}` and `num_cyls` as a function
of the 32-bit flag word with values in `1..6` (up to 12 for single-engine
wrap).  We therefore pass the *values* of these two functions — `engines` and
`cyls` — as explicit parameters wherever the source calls them.
-/

namespace Jpi

/-- `test_bit` from src/src/data.rs: `((x >> bit) & 1) != 0`. -/
def test_bit (x : Nat) (bit : Nat) : Bool :=
  ((x >>> bit) &&& 1) != 0

/-- `set_bit` from src/src/data.rs: `*x |= 1 << bit` (on a `u8`; every call
site passes `bit < 8`). -/
def set_bit (x : Nat) (bit : Nat) : Nat :=
  x ||| (1 <<< bit)

/-- `clear_bit` from src/src/data.rs: `*x &= !(1 << bit)`; `!` is bitwise
complement on `u8`, i.e. `255 ^^^ (1 <<< bit)` for `bit < 8`. -/
def clear_bit (x : Nat) (bit : Nat) : Nat :=
  x &&& (255 ^^^ (1 <<< bit))

/-- `test_bit_slice` from src/src/data.rs: `test_bit(arr[bit / 8], bit % 8)`.
All call sites index within bounds (`bit < 48`); out-of-range reads are
modelled as reading `0`. -/
def test_bit_slice (arr : Array Nat) (bit : Nat) : Bool :=
  test_bit (arr.getD (bit / 8) 0) (bit % 8)

/-- `clear_bit_slice` from src/src/data.rs. -/
def clear_bit_slice (arr : Array Nat) (bit : Nat) : Array Nat :=
  arr.setD (bit / 8) (clear_bit (arr.getD (bit / 8) 0) (bit % 8))

/-- Reduction of a mathematical integer into the `i16` range
`[-32768, 32767]`.  Rust's `overflowing_add`/`overflowing_sub`/`<<`
on `i16` are two's-complement wrapping operations. -/
def wrap16 (z : Int) : Int :=
  (z + 32768) % 65536 - 32768

/-- Number of set bits in the low 8 bits (`u8::count_ones`). -/
def popcount (b : Nat) : Nat :=
  (List.range 8).countP (fun k => b.testBit k)

/-- `TWINJUMP` from src/src/data.rs: offset from `egt` to `regt` in the
flat 48-field view (`3 * 8`). -/
def TWINJUMP : Nat := 24

/-- `has_rpm` from src/src/data.rs: bit 26 of the flight header flags. -/
def has_rpm (flags : Nat) : Bool :=
  flags &&& (1 <<< 26) == (1 <<< 26)

/-- `binary_record` from src/src/data.rs.  `data` is the flat `[i16; 48]`
view (`data_record::as_array`), in field declaration order:
group 0 = `egt[0..5], t1, t2` (indices 0–7), group 1 = `cht.., cld, oil`
(8–15), group 2 = `mark .. ff` (16–23), group 3 = `regt[0..5], hp_rt1, rt2`
(24–31), group 4 = `rcht.., rcld, roil` (32–39), group 5 =
`map, rpm, rpm_highbyte_rcdt, riat, unk_6_4, unk_6_5, rusd, rff` (40–47). -/
structure binary_record where
  data : Array Int
  dif : Array Int
  naflags : Array Nat
deriving DecidableEq

/-- `binary_record::new` from src/src/data.rs: all 48 fields filled with the
`i16` value `0xF0`; for single-engine configurations `hp_rt1` (index 30) and
`rpm_highbyte_rcdt` (index 42) are zeroed.  `engines` is the value of the
(spec-modelled) `num_engines(config)`. -/
def binary_record.new (engines : Nat) : binary_record :=
  let data := Array.mkArray 48 (240 : Int)
  let data := if engines = 1 then (data.setD 30 0).setD 42 0 else data
  { data := data, dif := #[0, 0], naflags := #[0, 0, 0, 0, 0, 0] }

/-- Error outcomes of the decoder.  The Rust code realises frame-level errors
as `panic!`/`assert!`/`unimplemented!`; the spec (§7) names the corresponding
implementation-neutral kinds, which we use as constructor names:
`badFrame` for the mismatched-decode-bytes panic and the scale-flag /
RPM-sign asserts, `unsupported` for `repeat > 1` (`unimplemented!`) and the
cylinder/engine assert in `calcstuff`, `badChecksum` for the frame checksum
assert, `eof` for nom running out of input, and `panicked` for the
out-of-bounds `egt` indexing in `calcstuff`. -/
inductive DecodeErr where
  | eof
  | badFrame
  | unsupported
  | badChecksum
  | panicked
deriving DecidableEq

/-- The inner cylinder loop of `binary_record::calcstuff`
(src/src/data.rs lines 115–121).  For each cylinder `i` it computes
`idx = if i < 6 { i + j*TWINJUMP } else { i - 6 + TWINJUMP }`, skips the
cylinder when its NA bit is set, and otherwise reads `self.data.egt[idx]`.
`egt` is the `[i16; 6]` *field* of `data_record`, so any read with
`idx >= 6` is an out-of-bounds panic (modelled as `none`); likewise
`naflags[idx / 8]` panics when `idx / 8 >= 6`. -/
def scan_cyls (data : Array Int) (naflags : Array Nat) (j : Nat) :
    List Nat → Int → Int → Option (Int × Int)
  | [], emax, emin => some (emax, emin)
  | i :: rest, emax, emin =>
    let idx := if i < 6 then i + j * TWINJUMP else i - 6 + TWINJUMP
    if idx / 8 < 6 then
      if test_bit (naflags.getD (idx / 8) 0) (idx % 8) then
        scan_cyls data naflags j rest emax emin
      else if idx < 6 then
        let v := data.getD idx 0
        scan_cyls data naflags j rest (max emax v) (min emin v)
      else none
    else none

/-- The engine loop of `binary_record::calcstuff` (src/src/data.rs lines
113–123): for each engine `j` it initialises `emax = -1`, `emin = 0x7FFF`,
scans the cylinders, and stores `emax - emin` (wrapping `i16` subtraction)
into `dif[j]`.  `dif` is `[i16; 2]`, so a write with `j >= 2` would be an
out-of-bounds panic (modelled as `none`). -/
def calc_engines (data : Array Int) (naflags : Array Nat) (cyls : Nat) :
    List Nat → Array Int → Option (Array Int)
  | [], dif => some dif
  | j :: rest, dif =>
    match scan_cyls data naflags j (List.range cyls) (-1) 32767 with
    | none => none
    | some (emax, emin) =>
      if j < 2 then
        calc_engines data naflags cyls rest (dif.setD j (wrap16 (emax - emin)))
      else none

/-- `binary_record::calcstuff` from src/src/data.rs (lines 108–129).
`engines` and `cyls` are the values of the spec-modelled
`num_engines(config)` and `num_cyls(header.flags)`; `fflags` is
`header.flags`.  The leading `assert!(cyls <= 6 || engines == 1)` is the
spec's `Unsupported` condition.  After the engine loop, if the RPM feature
bit is set, `rpm += rpm_highbyte_rcdt << 8` (wrapping) and
`rpm_highbyte_rcdt = 0` (indices 41 and 42 of the flat view). -/
def calcstuff (engines cyls fflags : Nat) (s : binary_record) :
    Except DecodeErr binary_record :=
  if cyls ≤ 6 ∨ engines = 1 then
    match calc_engines s.data s.naflags cyls (List.range engines) s.dif with
    | none => .error .panicked
    | some dif =>
      if has_rpm fflags then
        let rpmv := wrap16 (s.data.getD 41 0 + wrap16 (s.data.getD 42 0 * 256))
        .ok { data := (s.data.setD 41 rpmv).setD 42 0, dif := dif,
              naflags := s.naflags }
      else
        .ok { data := s.data, dif := dif, naflags := s.naflags }
  else .error .unsupported

/-- `parse_decode_bits` from src/src/data.rs (lines 232–243): for each `bit`
in the given range (passed here as the explicit ascending list
`List.range' start len`), if bit `bit` of `decodeflags` is set, one byte is
consumed from the input into logical slot `bit - start` of `out`; otherwise
the slot keeps its initial zero. -/
def parse_decode_bits (decodeflags start : Nat) :
    List Nat → List Nat → Array Nat → Except DecodeErr (List Nat × Array Nat)
  | [], i, out => .ok (i, out)
  | bit :: bits, i, out =>
    if test_bit decodeflags bit then
      match i with
      | [] => .error .eof
      | b :: rest => parse_decode_bits decodeflags start bits rest (out.setD (bit - start) b)
    else
      parse_decode_bits decodeflags start bits i out

/-- nom's `bytes::take(n)`: consume exactly `n` bytes, error on short input. -/
def take_bytes (n : Nat) (i : List Nat) : Except DecodeErr (List Nat × List Nat) :=
  if n ≤ i.length then .ok (i.drop n, i.take n) else .error .eof

/-- Total `count_ones` over an array of flag bytes
(`flags.iter().map(|x| x.count_ones()).sum()`). -/
def popcount_arr (a : Array Nat) : Nat :=
  (a.toList.map popcount).sum

/-- The per-field body of the field-delta loop in `parse_binary_record`
(src/src/data.rs lines 280–293): the delta byte `d` is `u8` cast to `i16`
(zero-extended), and it is subtracted when the sign bit is set, added
otherwise (wrapping `i16` arithmetic). -/
def apply_one_field (v : Int) (d : Nat) (sign : Bool) : Int :=
  if sign then wrap16 (v - (d : Int)) else wrap16 (v + (d : Int))

/-- One group of the field-delta loop of `parse_binary_record`
(src/src/data.rs lines 273–298).  The source iterates
`bit = flag.trailing_zeros()` and clears each processed bit, i.e. it visits
exactly the set bits of the flag byte in ascending order; we iterate
`bit ∈ 0..8` guarded by `test_bit flag bit`, which visits the same bits in
the same order.  For each set bit one byte is consumed from `difs`
(`field_dif` has exactly `Σ count_ones` bytes, so the list is never short;
`headD`'s default is unreachable); a non-zero byte *sets* the group's NA bit
and a zero byte *clears* it, then the field at `group*8 + bit` is updated. -/
def apply_field_bits (sign_byte group : Nat) :
    List Nat → Nat → Array Int → Nat → List Nat → Array Int × Nat × List Nat
  | [], _, data, na, difs => (data, na, difs)
  | bit :: bits, flag, data, na, difs =>
    if test_bit flag bit then
      let d := difs.headD 0
      let sign := test_bit sign_byte bit
      let idx := group * 8 + bit
      let na' := if d ≠ 0 then set_bit na bit else clear_bit na bit
      let v := apply_one_field (data.getD idx 0) d sign
      apply_field_bits sign_byte group bits flag (data.setD idx v) na' difs.tail
    else
      apply_field_bits sign_byte group bits flag data na difs

/-- The outer field-delta loop over the six groups
(src/src/data.rs lines 272–298). -/
def apply_field_groups (field_flags sign_flags : Array Nat) :
    List Nat → Array Int → Array Nat → List Nat → Array Int × Array Nat × List Nat
  | [], data, naflags, difs => (data, naflags, difs)
  | g :: gs, data, naflags, difs =>
    match apply_field_bits (sign_flags.getD g 0) g (List.range 8)
        (field_flags.getD g 0) data (naflags.getD g 0) difs with
    | (data', naByte, difs') =>
      apply_field_groups field_flags sign_flags gs data' (naflags.setD g naByte) difs'

/-- One group of the scale-delta loop of `parse_binary_record`
(src/src/data.rs lines 300–319): for each `bit ∈ 0..8` with the scale flag
set, one byte `x` is consumed; if `x != 0` the NA bit of
`idx = f*TWINJUMP + bit` is cleared and `x << 8` (wrapping `i16`) is
subtracted or added according to `sign_flags` bit `idx`. -/
def apply_scale_bits (sign_flags : Array Nat) (f : Nat) :
    List Nat → Nat → Array Int → Array Nat → List Nat → Array Int × Array Nat × List Nat
  | [], _, data, naflags, difs => (data, naflags, difs)
  | bit :: bits, sflag, data, naflags, difs =>
    if test_bit sflag bit then
      let x := difs.headD 0
      let idx := f * TWINJUMP + bit
      if x ≠ 0 then
        let naflags' := clear_bit_slice naflags idx
        let xv := wrap16 ((x : Int) * 256)
        let v0 := data.getD idx 0
        let v := if test_bit_slice sign_flags idx then wrap16 (v0 - xv) else wrap16 (v0 + xv)
        apply_scale_bits sign_flags f bits sflag (data.setD idx v) naflags' difs.tail
      else
        apply_scale_bits sign_flags f bits sflag data naflags difs.tail
    else
      apply_scale_bits sign_flags f bits sflag data naflags difs

/-- The outer scale-delta loop over the two scale groups
(src/src/data.rs lines 300–319). -/
def apply_scale_groups (sign_flags scale_flags : Array Nat) :
    List Nat → Array Int → Array Nat → List Nat → Array Int × Array Nat × List Nat
  | [], data, naflags, difs => (data, naflags, difs)
  | f :: fs, data, naflags, difs =>
    match apply_scale_bits sign_flags f (List.range 8) (scale_flags.getD f 0)
        data naflags difs with
    | (data', naflags', difs') =>
      apply_scale_groups sign_flags scale_flags fs data' naflags' difs'

/-- The single-engine RPM high-byte quirk of `parse_binary_record`
(src/src/data.rs lines 321–329): if `sign_flags[5]` bit 1 (RPM) is set,
assert that bit 2 (rpm_highbyte) is clear, negate `rpm_highbyte_rcdt`
(index 42; wrapping `i16` negation) and, if the negated value is non-zero,
clear the NA bit for RPM (group 5, bit 1). -/
def rpm_quirk (sign_flags : Array Nat) (data : Array Int) (naflags : Array Nat) :
    Except DecodeErr (Array Int × Array Nat) :=
  if test_bit (sign_flags.getD 5 0) 1 then
    if test_bit (sign_flags.getD 5 0) 2 then .error .badFrame
    else
      let v := wrap16 (- data.getD 42 0)
      let data' := data.setD 42 v
      let naflags' :=
        if v ≠ 0 then naflags.setD 5 (clear_bit (naflags.getD 5 0) 1) else naflags
      .ok (data', naflags')
  else .ok (data, naflags)

/-- `calc_new_checksum` from src/src/data.rs (lines 152–155): the `u8`
wrapping sum of all bytes, negated in two's complement
(`(-(sum as i8)) as u8`), i.e. `(256 - sum) % 256`. -/
def calc_new_checksum (data : List Nat) : Nat :=
  (256 - data.foldl (fun acc x => (acc + x) % 256) 0) % 256

/-- `calc_checksum` from src/src/data.rs (delegates to `calc_new_checksum`). -/
def calc_checksum (data : List Nat) : Nat :=
  calc_new_checksum data

/-- The delta-application and post-processing tail of `parse_binary_record`
(src/src/data.rs lines 270–330): the field-delta loop over the six groups,
the scale-delta loop over the two scale groups, the single-engine RPM
quirk, and `calcstuff` (with `dif` carried over from `prev` until
`calcstuff` recomputes it). -/
def apply_deltas (engines cyls fflags : Nat) (prev : binary_record)
    (field_flags scale_flags sign_flags : Array Nat)
    (field_dif scale_dif : List Nat) : Except DecodeErr binary_record :=
  match apply_field_groups field_flags sign_flags (List.range 6)
      prev.data prev.naflags field_dif with
  | (dataF, naF, _) =>
    match apply_scale_groups sign_flags scale_flags (List.range 2)
        dataF naF scale_dif with
    | (dataS, naS, _) =>
      match (if engines = 1 then rpm_quirk sign_flags dataS naS
             else .ok (dataS, naS)) with
      | .error e => .error e
      | .ok (dataR, naR) =>
        calcstuff engines cyls fflags
          { data := dataR, dif := prev.dif, naflags := naR }

/-- The checksum verification at the end of `parse_binary_record`
(src/src/data.rs lines 332–340): the next byte must equal `calc_checksum`
over all frame bytes consumed so far (`input` is the whole frame, `i5` the
remaining input positioned at the checksum byte). -/
def verify_frame_checksum (input i5 : List Nat) (out : binary_record) :
    Except DecodeErr (List Nat × binary_record) :=
  match i5 with
  | [] => .error .eof
  | c :: i6 =>
    if c = calc_checksum (input.take (input.length - i5.length)) then
      .ok (i6, out)
    else .error .badChecksum

/-- The non-repeat tail of `parse_binary_record` after the three
`parse_decode_bits` stages (src/src/data.rs lines 262–340): the
`assert!(scale_flags[1] == 0 || num_engines(config) == 1)`, the two
`bytes::take` calls, delta application and checksum verification. -/
def parse_after_flags (engines cyls fflags : Nat) (prev : binary_record)
    (input : List Nat) (field_flags scale_flags sign_flags : Array Nat)
    (i3 : List Nat) : Except DecodeErr (List Nat × binary_record) :=
  if scale_flags.getD 1 0 = 0 ∨ engines = 1 then
    match take_bytes (popcount_arr field_flags) i3 with
    | .error e => .error e
    | .ok (i4, field_dif) =>
      match take_bytes (popcount_arr scale_flags) i4 with
      | .error e => .error e
      | .ok (i5, scale_dif) =>
        match apply_deltas engines cyls fflags prev
            field_flags scale_flags sign_flags field_dif scale_dif with
        | .error e => .error e
        | .ok out => verify_frame_checksum input i5 out
  else .error .badFrame

/-- The non-repeat path of `parse_binary_record`: the three
`parse_decode_bits` stages (field flags over bits 0..6, scale flags over
bits 6..8, sign flags over bits 0..6) followed by `parse_after_flags`. -/
def parse_nonrepeat (engines cyls fflags : Nat) (prev : binary_record)
    (input i0 : List Nat) (d1 : Nat) : Except DecodeErr (List Nat × binary_record) :=
  match parse_decode_bits d1 0 (List.range' 0 6) i0 (Array.mkArray 6 0) with
  | .error e => .error e
  | .ok (i1, field_flags) =>
    match parse_decode_bits d1 6 (List.range' 6 2) i1 (Array.mkArray 2 0) with
    | .error e => .error e
    | .ok (i2, scale_flags) =>
      match parse_decode_bits d1 0 (List.range' 0 6) i2 (Array.mkArray 6 0) with
      | .error e => .error e
      | .ok (i3, sign_flags) =>
        parse_after_flags engines cyls fflags prev input
          field_flags scale_flags sign_flags i3

/-- `parse_binary_record` from src/src/data.rs (lines 245–341).
`engines` and `cyls` are the values of the spec-modelled
`num_engines(config)` and `num_cyls(fheader.flags)`; `fflags` is
`fheader.flags`.  Stages, in source order: `parse_data_header` (3 bytes,
`decode[0] != decode[1]` is the "mismatched decode bytes" panic); repeat
handling (`repeat > 1` is `unimplemented!`, `repeat == 1` re-emits `prev`);
then `parse_nonrepeat` for the flag stages, delta application and checksum
verification. -/
def parse_binary_record (engines cyls fflags : Nat) (prev : binary_record)
    (input : List Nat) : Except DecodeErr (List Nat × binary_record) :=
  match input with
  | d1 :: d2 :: r :: i0 =>
    if d1 ≠ d2 then .error .badFrame
    else if r ≠ 0 then
      if r > 1 then .error .unsupported
      else .ok (i0, prev)
    else parse_nonrepeat engines cyls fflags prev (d1 :: d2 :: r :: i0) i0 d1
  | _ => .error .eof

/-- The field-flag and scale-flag bytes of a non-repeat frame, obtained by
re-running the first two `parse_decode_bits` stages on the frame's bytes
(used to state properties of accepted frames). -/
def frame_flags (input : List Nat) : Option (Array Nat × Array Nat) :=
  match input with
  | d1 :: _ :: _ :: i0 =>
    match parse_decode_bits d1 0 (List.range' 0 6) i0 (Array.mkArray 6 0) with
    | .error _ => none
    | .ok (i1, ff) =>
      match parse_decode_bits d1 6 (List.range' 6 2) i1 (Array.mkArray 2 0) with
      | .error _ => none
      | .ok (_, sf) => some (ff, sf)
  | _ => none

/-- The position, within a frame's `field_dif` byte run, of the delta byte
for bit `b` of group `g`: the total popcount of the field-flag bytes of the
earlier groups plus the number of set flag bits below `b` in group `g`
(the source's `field_dif_idx` at the moment field `g*8 + b` is updated). -/
def field_dif_position (ff : Array Nat) (g b : Nat) : Nat :=
  ((List.range g).map (fun g' => popcount (ff.getD g' 0))).sum
    + (List.range b).countP (fun k => test_bit (ff.getD g 0) k)

/-!
## ASCII header records (src/src/headers.rs)
-/

/-- Error outcomes of the ASCII header parser, named after the spec's (§7)
implementation-neutral kinds.  nom's structural errors (`Tag`, `TakeUntil`,
`MapRes`, `Char`, `Eof` from `all_consuming`) are `badEnvelope`; the
explicit `Verify` failure on a checksum mismatch is `badChecksum`; the
`NoneOf` failure for an unknown record letter is `unknownRecord`; failures
inside the numeric payload sub-parsers (including `is_not` for the tail
number) are `badNumber`. -/
inductive HErr where
  | badEnvelope
  | badChecksum
  | unknownRecord
  | badNumber
deriving DecidableEq

/-- `ConfiguredLimits` from src/src/headers.rs. -/
structure ConfiguredLimits where
  volts_hi_times_ten : Nat
  volts_lo_times_ten : Nat
  dif : Nat
  cht : Nat
  cld : Nat
  tit : Nat
  oil_hi : Nat
  oil_lo : Nat
deriving DecidableEq

/-- `FuelFlowLimits` from src/src/headers.rs. -/
structure FuelFlowLimits where
  empty : Nat
  full : Nat
  warning : Nat
  k_factor : Nat
  k_factor2 : Nat
deriving DecidableEq

/-- `Timestamp` from src/src/headers.rs. -/
structure Timestamp where
  month : Nat
  day : Nat
  year : Nat
  hour : Nat
  minute : Nat
  unknown : Nat
deriving DecidableEq

/-- `ConfigInfo` from src/src/headers.rs. -/
structure ConfigInfo where
  model_number : Nat
  feature_flags_lo : Nat
  feature_flags_hi : Nat
  unknown_flags : Nat
  firmware_version : Nat
deriving DecidableEq

/-- `FlightInfo` from src/src/headers.rs. -/
structure FlightInfo where
  flight_number : Nat
  length : Nat
deriving DecidableEq

/-- `LastHeaderRecord` from src/src/headers.rs. -/
structure LastHeaderRecord where
  unknown : Nat
deriving DecidableEq

/-- `HeaderRecord` from src/src/headers.rs. -/
inductive HeaderRecord where
  | U (tail : List Char)
  | A (v : ConfiguredLimits)
  | F (v : FuelFlowLimits)
  | T (v : Timestamp)
  | C (v : ConfigInfo)
  | D (v : FlightInfo)
  | L (v : LastHeaderRecord)
deriving DecidableEq

/-- nom's `space0`: drop leading spaces and tabs. -/
def space0 (i : List Char) : List Char :=
  i.dropWhile (fun c => c == ' ' || c == '\t')

/-- The numeric value of a run of ASCII digits. -/
def digits_value (ds : List Char) : Nat :=
  ds.foldl (fun a c => a * 10 + (c.toNat - 48)) 0

/-- nom's `character::complete::u16`: one or more ASCII digits, failing on
empty input and on values that overflow `u16`. -/
def parse_u16 (i : List Char) : Option (List Char × Nat) :=
  let ds := i.takeWhile Char.isDigit
  if ds.isEmpty then none
  else if digits_value ds < 65536 then
    some (i.dropWhile Char.isDigit, digits_value ds)
  else none

/-- `parse_short` from src/src/headers.rs: a decimal `u16` delimited by
optional spaces, followed by a comma or end of input. -/
def parse_short (i : List Char) : Except HErr (List Char × Nat) :=
  match parse_u16 (space0 i) with
  | none => .error .badNumber
  | some (i2, v) =>
    match space0 i2 with
    | ',' :: r => .ok (r, v)
    | [] => .ok ([], v)
    | _ => .error .badNumber

/-- `tail_number_parser` / `not_underscore` from src/src/headers.rs:
`is_not("_")`, one or more characters up to the first underscore. -/
def tail_number_sub (i : List Char) : Except HErr (List Char × List Char) :=
  let tk := i.takeWhile (fun c => c ≠ '_')
  if tk.isEmpty then .error .badNumber
  else .ok (i.dropWhile (fun c => c ≠ '_'), tk)

/-- `configured_limits_parser` from src/src/headers.rs. -/
def configured_limits_sub (i : List Char) : Except HErr (List Char × ConfiguredLimits) := do
  let (i, volts_hi_times_ten) ← parse_short i
  let (i, volts_lo_times_ten) ← parse_short i
  let (i, dif) ← parse_short i
  let (i, cht) ← parse_short i
  let (i, cld) ← parse_short i
  let (i, tit) ← parse_short i
  let (i, oil_hi) ← parse_short i
  let (i, oil_lo) ← parse_short i
  return (i, { volts_hi_times_ten, volts_lo_times_ten, dif, cht, cld, tit,
               oil_hi, oil_lo })

/-- `fuel_flow_parser` from src/src/headers.rs. -/
def fuel_flow_sub (i : List Char) : Except HErr (List Char × FuelFlowLimits) := do
  let (i, empty) ← parse_short i
  let (i, full) ← parse_short i
  let (i, warning) ← parse_short i
  let (i, k_factor) ← parse_short i
  let (i, k_factor2) ← parse_short i
  return (i, { empty, full, warning, k_factor, k_factor2 })

/-- `timestamp_parser` from src/src/headers.rs. -/
def timestamp_sub (i : List Char) : Except HErr (List Char × Timestamp) := do
  let (i, month) ← parse_short i
  let (i, day) ← parse_short i
  let (i, year) ← parse_short i
  let (i, hour) ← parse_short i
  let (i, minute) ← parse_short i
  let (i, unknown) ← parse_short i
  return (i, { month, day, year, hour, minute, unknown })

/-- `config_info_parser` from src/src/headers.rs. -/
def config_info_sub (i : List Char) : Except HErr (List Char × ConfigInfo) := do
  let (i, model_number) ← parse_short i
  let (i, feature_flags_lo) ← parse_short i
  let (i, feature_flags_hi) ← parse_short i
  let (i, unknown_flags) ← parse_short i
  let (i, firmware_version) ← parse_short i
  return (i, { model_number, feature_flags_lo, feature_flags_hi,
               unknown_flags, firmware_version })

/-- `flight_info_parser` from src/src/headers.rs. -/
def flight_info_sub (i : List Char) : Except HErr (List Char × FlightInfo) := do
  let (i, flight_number) ← parse_short i
  let (i, length) ← parse_short i
  return (i, { flight_number, length })

/-- `last_header_record_parser` from src/src/headers.rs. -/
def last_header_record_sub (i : List Char) : Except HErr (List Char × LastHeaderRecord) := do
  let (i, unknown) ← parse_short i
  return (i, { unknown })

/-- The value of one ASCII hex digit (`u8::from_str_radix` accepts both
cases). -/
def hex_digit_val (c : Char) : Option Nat :=
  if '0' ≤ c ∧ c ≤ '9' then some (c.toNat - 48)
  else if 'A' ≤ c ∧ c ≤ 'F' then some (c.toNat - 55)
  else if 'a' ≤ c ∧ c ≤ 'f' then some (c.toNat - 87)
  else none

/-- `parse_hex2` from src/src/headers.rs: exactly two characters through
`u8::from_str_radix(s, 16)`, which also tolerates a leading `'+'`. -/
def from_hex2 (c1 c2 : Char) : Option Nat :=
  match hex_digit_val c1, hex_digit_val c2 with
  | some v1, some v2 => some (16 * v1 + v2)
  | none, some v2 => if c1 = '+' then some v2 else none
  | _, _ => none

/-- The XOR-of-bytes checksum over the record middle
(`middle.bytes().fold(0u8, u8::bitxor)`); faithful for ASCII lines, where
`str::bytes` yields one byte per character. -/
def xor8 (l : List Char) : Nat :=
  l.foldl (fun a c => a ^^^ (c.toNat % 256)) 0

/-- nom's `take_until("*")`: split the input at the first `'*'`, returning
(rest including the star, taken prefix); fails when no `'*'` occurs. -/
def take_until_star : List Char → Option (List Char × List Char)
  | [] => none
  | c :: cs =>
    if c = '*' then some (c :: cs, [])
    else
      match take_until_star cs with
      | none => none
      | some (rest, taken) => some (rest, c :: taken)

/-- `header_record_parser` from src/src/headers.rs (lines 183–198): the
envelope `'$' middle '*' HH`; `middle` must be a letter followed by a comma
and the payload; the XOR checksum of `middle` must equal the hex byte. -/
def header_record_parse (line : List Char) :
    Except HErr (List Char × (Char × List Char)) :=
  match line with
  | '$' :: i =>
    match take_until_star i with
    | none => .error .badEnvelope
    | some (rest1, middle) =>
      match rest1 with
      | '*' :: c1 :: c2 :: rest =>
        match from_hex2 c1 c2 with
        | none => .error .badEnvelope
        | some checksum =>
          match middle with
          | t :: ',' :: record =>
            if xor8 middle = checksum then .ok (rest, (t, record))
            else .error .badChecksum
          | _ => .error .badEnvelope
      | _ => .error .badEnvelope
  | _ => .error .badEnvelope

/-- The record-type dispatch of `parse_record` from src/src/headers.rs
(lines 203–213). -/
def dispatch_record (t : Char) (data : List Char) :
    Except HErr (List Char × HeaderRecord) :=
  match t with
  | 'U' => (tail_number_sub data).map (fun p => (p.1, .U p.2))
  | 'A' => (configured_limits_sub data).map (fun p => (p.1, .A p.2))
  | 'F' => (fuel_flow_sub data).map (fun p => (p.1, .F p.2))
  | 'T' => (timestamp_sub data).map (fun p => (p.1, .T p.2))
  | 'C' => (config_info_sub data).map (fun p => (p.1, .C p.2))
  | 'D' => (flight_info_sub data).map (fun p => (p.1, .D p.2))
  | 'L' => (last_header_record_sub data).map (fun p => (p.1, .L p.2))
  | _ => .error .unknownRecord

/-- `parse_record` from src/src/headers.rs (lines 200–214):
`all_consuming(header_record_parser)` (nothing may remain after the
checksum) followed by the type dispatch. -/
def parse_record (i : List Char) : Except HErr (List Char × HeaderRecord) :=
  match header_record_parse i with
  | .error e => .error e
  | .ok (rest, (t, data)) =>
    if rest.isEmpty then dispatch_record t data
    else .error .badEnvelope

/-!
## Helper lemmas about `Array.setD`/`Array.getD` and `wrap16`
-/

theorem getD_setD_ne (a : Array Int) (i j : Nat) (v : Int) (h : i ≠ j) :
    (a.setD i v).getD j 0 = a.getD j 0 := by
  simp only [Array.getD_eq_get?, Array.setD]
  split
  · rw [Array.getElem?_set_ne _ _ _ h]
  · rfl

theorem getD_setD_self (a : Array Int) (i : Nat) (v : Int) (h : i < a.size) :
    (a.setD i v).getD i 0 = v := by
  simp only [Array.getD_eq_get?, Array.getElem?_setD_eq a h v, Option.getD_some]

theorem getD_of_ge (a : Array Int) (i : Nat) (h : a.size ≤ i) :
    a.getD i 0 = 0 := by
  simp only [Array.getD_eq_get?, Array.getElem?_ge a h, Option.getD_none]

theorem setD_of_ge (a : Array Int) (i : Nat) (v : Int) (h : a.size ≤ i) :
    a.setD i v = a := by
  simp only [Array.setD]
  rw [dif_neg (by omega)]

theorem setD_eq_of_getD (a : Array Int) (i : Nat) (v : Int)
    (h : i < a.size → a.getD i 0 = v) : a.setD i v = a := by
  by_cases hi : i < a.size
  · have hv : a[i] = v := by
      have := h hi
      simpa [Array.getD_eq_get?, Array.getElem?_eq_getElem hi] using this
    simp only [Array.setD, dif_pos hi]
    apply Array.ext
    · simp
    · intro j hj hj'
      rw [Array.getElem_set]
      split
      · next heq => subst heq; exact hv.symm
      · rfl
  · exact setD_of_ge a i v (by omega)

theorem getD_setD_zero (a : Array Int) (i : Nat) :
    (a.setD i (0 : Int)).getD i 0 = 0 := by
  by_cases hi : i < a.size
  · exact getD_setD_self a i 0 hi
  · rw [setD_of_ge a i 0 (by omega), getD_of_ge a i (by omega)]

theorem wrap16_nonneg_bound (z : Int) :
    -32768 ≤ wrap16 z ∧ wrap16 z < 32768 := by
  unfold wrap16
  constructor
  · have := Int.emod_nonneg (z + 32768) (by norm_num : (65536 : Int) ≠ 0)
    omega
  · have := Int.emod_lt_of_pos (z + 32768) (by norm_num : (0 : Int) < 65536)
    omega

theorem wrap16_fix (z : Int) (h1 : -32768 ≤ z) (h2 : z < 32768) :
    wrap16 z = z := by
  unfold wrap16
  rw [Int.emod_eq_of_lt (by omega) (by omega)]
  omega

theorem wrap16_wrap16 (z : Int) : wrap16 (wrap16 z) = wrap16 z :=
  wrap16_fix _ (wrap16_nonneg_bound z).1 (wrap16_nonneg_bound z).2

theorem wrap16_zero : wrap16 0 = 0 := rfl

/-!
## Byte-counting lemmas for the decoder stages
-/

theorem test_bit_eq_testBit (x b : Nat) : test_bit x b = x.testBit b := by
  unfold test_bit Nat.testBit
  rw [Nat.and_comm]

theorem parse_decode_bits_length (d s : Nat) :
    ∀ (bits i : List Nat) (out : Array Nat) (i' : List Nat) (out' : Array Nat),
      parse_decode_bits d s bits i out = .ok (i', out') →
      i.length = bits.countP (fun b => test_bit d b) + i'.length := by
  intro bits
  induction bits with
  | nil =>
    intro i out i' out' h
    simp only [parse_decode_bits, Except.ok.injEq, Prod.mk.injEq] at h
    simp [h.1]
  | cons bit bits ih =>
    intro i out i' out' h
    by_cases hb : test_bit d bit
    · cases i with
      | nil => simp [parse_decode_bits, hb] at h
      | cons b rest =>
        simp only [parse_decode_bits, hb, if_true] at h
        have hl := ih rest _ i' out' h
        simp [List.countP_cons, hb]
        omega
    · simp only [parse_decode_bits, hb, if_false] at h
      have hl := ih i out i' out' h
      simp [List.countP_cons, hb]
      omega

theorem take_bytes_ok_length (n : Nat) (i i' taken : List Nat)
    (h : take_bytes n i = .ok (i', taken)) :
    i.length = n + i'.length := by
  unfold take_bytes at h
  split at h
  · next hle =>
    simp only [Except.ok.injEq, Prod.mk.injEq] at h
    have := h.1
    subst this
    simp only [List.length_drop]
    omega
  · cases h

/-- The low six bits of `decode[0]` select the field-flag bytes:
their count is `popcount(decode[0] & 0x3F)`. -/
theorem countP_lowbits (d : Nat) :
    (List.range' 0 6).countP (fun b => test_bit d b) = popcount (d &&& 63) := by
  have h63 : ∀ k, (d &&& 63).testBit k = (decide (k < 6) && d.testBit k) := by
    intro k
    rw [Nat.and_pow_two_sub_one_eq_mod d 6, Nat.testBit_mod_two_pow]
  have hr6 : List.range' 0 6 = [0, 1, 2, 3, 4, 5] := by decide
  have hr8 : List.range 8 = [0, 1, 2, 3, 4, 5, 6, 7] := by decide
  simp [popcount, hr6, hr8, List.countP_cons, test_bit_eq_testBit, h63]

/-- Bits 6 and 7 of `decode[0]` select the scale-flag bytes:
their count is `popcount((decode[0] >> 6) & 0x03)`. -/
theorem countP_highbits (d : Nat) :
    (List.range' 6 2).countP (fun b => test_bit d b) = popcount ((d >>> 6) &&& 3) := by
  have h3 : ∀ k, ((d >>> 6) &&& 3).testBit k = (decide (k < 2) && d.testBit (6 + k)) := by
    intro k
    rw [Nat.and_pow_two_sub_one_eq_mod _ 2, Nat.testBit_mod_two_pow,
      Nat.testBit_shiftRight]
  have hr2 : List.range' 6 2 = [6, 7] := by decide
  have hr8 : List.range 8 = [0, 1, 2, 3, 4, 5, 6, 7] := by decide
  simp [popcount, hr2, hr8, List.countP_cons, test_bit_eq_testBit, h3]

/-!
## Congruence and idempotence lemmas for `calcstuff`
-/

theorem scan_cyls_congr (da db : Array Int) (na : Array Nat) (j : Nat)
    (hag : ∀ k, k < 6 → da.getD k 0 = db.getD k 0) :
    ∀ (l : List Nat) (emax emin : Int),
      scan_cyls da na j l emax emin = scan_cyls db na j l emax emin := by
  intro l
  induction l with
  | nil => intro emax emin; rfl
  | cons i rest ih =>
    intro emax emin
    simp only [scan_cyls]
    generalize (if i < 6 then i + j * TWINJUMP else i - 6 + TWINJUMP) = idx
    split
    · split
      · exact ih _ _
      · split
        · next h1 h2 h3 => rw [hag _ h3]; exact ih _ _
        · rfl
    · rfl

theorem calc_engines_congr (da db : Array Int) (na : Array Nat) (c : Nat)
    (hag : ∀ k, k < 6 → da.getD k 0 = db.getD k 0) :
    ∀ (l : List Nat) (dif : Array Int),
      calc_engines da na c l dif = calc_engines db na c l dif := by
  intro l
  induction l with
  | nil => intro dif; rfl
  | cons j rest ih =>
    intro dif
    simp only [calc_engines, scan_cyls_congr da db na j hag]
    rcases hsc : scan_cyls db na j (List.range c) (-1) 32767 with _ | ⟨emax, emin⟩
    · simp only [hsc]
    · simp only [hsc]
      split
      · exact ih _
      · rfl

theorem calc_engines_size (d : Array Int) (na : Array Nat) (c : Nat) :
    ∀ (l : List Nat) (dif0 dif : Array Int),
      calc_engines d na c l dif0 = some dif → dif.size = dif0.size := by
  intro l
  induction l with
  | nil =>
    intro dif0 dif h
    simp only [calc_engines, Option.some.injEq] at h
    rw [← h]
  | cons j rest ih =>
    intro dif0 dif h
    simp only [calc_engines] at h
    rcases hsc : scan_cyls d na j (List.range c) (-1) 32767 with _ | ⟨emax, emin⟩
    · simp only [hsc] at h; cases h
    · simp only [hsc] at h
      split at h
      · have hs := ih _ _ h
        rwa [Array.size_setD] at hs
      · cases h

theorem calc_engines_getD_preserved (d : Array Int) (na : Array Nat) (c : Nat) :
    ∀ (l : List Nat) (dif0 dif : Array Int) (k : Nat), k ∉ l →
      calc_engines d na c l dif0 = some dif → dif.getD k 0 = dif0.getD k 0 := by
  intro l
  induction l with
  | nil =>
    intro dif0 dif k _ h
    simp only [calc_engines, Option.some.injEq] at h
    rw [← h]
  | cons j rest ih =>
    intro dif0 dif k hk h
    simp only [calc_engines] at h
    rcases hsc : scan_cyls d na j (List.range c) (-1) 32767 with _ | ⟨emax, emin⟩
    · simp only [hsc] at h; cases h
    · simp only [hsc] at h
      split at h
      · have hk1 : k ∉ rest := fun hm => hk (List.mem_cons_of_mem _ hm)
        have hkj : j ≠ k := fun he => hk (he ▸ List.mem_cons_self _ _)
        rw [ih _ _ k hk1 h, getD_setD_ne _ _ _ _ hkj]
      · cases h

theorem calc_engines_idem (d : Array Int) (na : Array Nat) (c : Nat) :
    ∀ (l : List Nat), l.Nodup → ∀ (dif0 dif : Array Int),
      calc_engines d na c l dif0 = some dif →
      calc_engines d na c l dif = some dif := by
  intro l
  induction l with
  | nil =>
    intro _ dif0 dif h
    simp only [calc_engines, Option.some.injEq] at h
    subst h
    rfl
  | cons j rest ih =>
    intro hnd dif0 dif h
    obtain ⟨hj, hndr⟩ := List.nodup_cons.mp hnd
    simp only [calc_engines] at h ⊢
    rcases hsc : scan_cyls d na j (List.range c) (-1) 32767 with _ | ⟨emax, emin⟩
    · simp only [hsc] at h; cases h
    · simp only [hsc] at h ⊢
      split at h
      · next hjlt =>
        rw [if_pos hjlt]
        have hset : dif.setD j (wrap16 (emax - emin)) = dif := by
          apply setD_eq_of_getD
          intro hlt
          have hsz := calc_engines_size d na c rest _ dif h
          rw [Array.size_setD] at hsz
          rw [calc_engines_getD_preserved d na c rest _ dif j hj h]
          exact getD_setD_self _ _ _ (by omega)
        rw [hset]
        exact ih hndr _ _ h
      · cases h
/-!
## Positional lemmas for the field-delta loop
-/


theorem drop_tail_eq (l : List Nat) (n : Nat) : l.tail.drop n = l.drop (n + 1) := by
  rw [← List.drop_one, List.drop_drop, Nat.add_comm]

theorem headD_drop_eq_getD : ∀ (l : List Nat) (n : Nat), (l.drop n).headD 0 = l.getD n 0 := by
  intro l
  induction l with
  | nil => intro n; cases n <;> rfl
  | cons a t ih =>
    intro n
    cases n with
    | zero => rfl
    | succ m => exact ih m

theorem apply_field_bits_size (sb g : Nat) :
    ∀ (bits : List Nat) (flag : Nat) (data : Array Int) (na : Nat) (difs : List Nat),
      ((apply_field_bits sb g bits flag data na difs).1).size = data.size := by
  intro bits
  induction bits with
  | nil => intros; rfl
  | cons bit rest ih =>
    intro flag data na difs
    simp only [apply_field_bits]
    split
    · rw [ih]
      exact Array.size_setD _ _ _
    · exact ih _ _ _ _

theorem apply_field_bits_difs (sb g : Nat) :
    ∀ (bits : List Nat) (flag : Nat) (data : Array Int) (na : Nat) (difs : List Nat),
      (apply_field_bits sb g bits flag data na difs).2.2
        = difs.drop (bits.countP (fun k => test_bit flag k)) := by
  intro bits
  induction bits with
  | nil => intros; rfl
  | cons bit rest ih =>
    intro flag data na difs
    simp only [apply_field_bits]
    split
    · next hbit =>
      rw [ih, drop_tail_eq, List.countP_cons]
      simp [hbit]
    · next hbit =>
      rw [ih, List.countP_cons]
      simp [hbit]

theorem apply_field_bits_untouched (sb g : Nat) :
    ∀ (bits : List Nat) (flag : Nat) (data : Array Int) (na : Nat) (difs : List Nat) (idx : Nat),
      (∀ k ∈ bits, g * 8 + k ≠ idx) →
      ((apply_field_bits sb g bits flag data na difs).1).getD idx 0 = data.getD idx 0 := by
  intro bits
  induction bits with
  | nil => intros; rfl
  | cons bit rest ih =>
    intro flag data na difs idx hno
    simp only [apply_field_bits]
    split
    · rw [ih _ _ _ _ _ (fun k hk => hno k (List.mem_cons_of_mem _ hk))]
      exact getD_setD_ne _ _ _ _ (hno bit (List.mem_cons_self _ _))
    · exact ih _ _ _ _ _ (fun k hk => hno k (List.mem_cons_of_mem _ hk))

theorem apply_field_bits_touched (sb g : Nat) (b : Nat) :
    ∀ (l1 : List Nat) (l2 : List Nat) (flag : Nat), test_bit flag b →
      (∀ k ∈ l1, k ≠ b) → (∀ k ∈ l2, k ≠ b) →
      ∀ (data : Array Int) (na : Nat) (difs : List Nat), g * 8 + b < data.size →
      ((apply_field_bits sb g (l1 ++ b :: l2) flag data na difs).1).getD (g * 8 + b) 0
        = apply_one_field (data.getD (g * 8 + b) 0)
            ((difs.drop (l1.countP (fun k => test_bit flag k))).headD 0)
            (test_bit sb b) := by
  intro l1
  induction l1 with
  | nil =>
    intro l2 flag hb _ hno2 data na difs hsz
    simp only [List.nil_append, apply_field_bits, hb, if_true, List.countP_nil, List.drop_zero]
    rw [apply_field_bits_untouched sb g l2 _ _ _ _ _
      (fun k hk h => hno2 k hk (by omega))]
    exact getD_setD_self _ _ _ hsz
  | cons k l1 ih =>
    intro l2 flag hb hno1 hno2 data na difs hsz
    have hkb : k ≠ b := hno1 k (List.mem_cons_self _ _)
    have hno1' : ∀ k' ∈ l1, k' ≠ b := fun k' hk' => hno1 k' (List.mem_cons_of_mem _ hk')
    rw [List.cons_append]
    simp only [apply_field_bits, List.countP_cons]
    split
    · next hbit =>
      rw [ih l2 flag hb hno1' hno2 _ _ _ (by rw [Array.size_setD]; omega)]
      rw [getD_setD_ne _ _ _ _ (by omega), drop_tail_eq]
      simp [hbit, Array.getD_eq_get?, Array.getElem?_eq_getElem hsz]
    · next hbit =>
      rw [ih l2 flag hb hno1' hno2 _ _ _ hsz]
      simp [hbit, Array.getD_eq_get?, Array.getElem?_eq_getElem hsz]

theorem apply_field_groups_untouched (ff sf : Array Nat) :
    ∀ (gs : List Nat) (data : Array Int) (na : Array Nat) (difs : List Nat) (idx : Nat),
      (∀ g' ∈ gs, ∀ k, k < 8 → g' * 8 + k ≠ idx) →
      ((apply_field_groups ff sf gs data na difs).1).getD idx 0 = data.getD idx 0 := by
  intro gs
  induction gs with
  | nil => intros; rfl
  | cons g' gs ih =>
    intro data na difs idx hno
    simp only [apply_field_groups]
    rw [ih _ _ _ _ (fun x hx => hno x (List.mem_cons_of_mem _ hx))]
    exact apply_field_bits_untouched _ _ _ _ _ _ _ _
      (fun k hk => hno g' (List.mem_cons_self _ _) k (List.mem_range.mp hk))

theorem apply_field_groups_touched (ff sf : Array Nat) (g b : Nat) (hb8 : b < 8)
    (hfb : test_bit (ff.getD g 0) b) :
    ∀ (l1 l2 : List Nat), (∀ g' ∈ l1, g' ≠ g) → (∀ g' ∈ l2, g' ≠ g) →
    ∀ (data : Array Int) (na : Array Nat) (difs : List Nat), g * 8 + b < data.size →
    ((apply_field_groups ff sf (l1 ++ g :: l2) data na difs).1).getD (g * 8 + b) 0
      = apply_one_field (data.getD (g * 8 + b) 0)
          ((difs.drop
              ((l1.map (fun g' => (List.range 8).countP (fun k => test_bit (ff.getD g' 0) k))).sum
                + (List.range b).countP (fun k => test_bit (ff.getD g 0) k))).headD 0)
          (test_bit (sf.getD g 0) b) := by
  intro l1
  induction l1 with
  | nil =>
    intro l2 _ hno2 data na difs hsz
    simp only [List.nil_append, apply_field_groups, List.map_nil, List.sum_nil, Nat.zero_add]
    have hsplit : List.range 8 = List.range b ++ b :: List.range' (b + 1) (7 - b) := by
      interval_cases b <;> rfl
    rw [apply_field_groups_untouched ff sf l2 _ _ _ _
      (fun g' hg' k hk => by have := hno2 g' hg'; omega)]
    rw [hsplit]
    rw [apply_field_bits_touched _ _ _ _ _ _ hfb
      (fun k hk => by have := List.mem_range.mp hk; omega)
      (fun k hk => by
        have h1 : b + 1 ≤ k := (List.mem_range'_1.mp hk).1
        omega)
      _ _ _ hsz]
  | cons g1 l1 ih =>
    intro l2 hno1 hno2 data na difs hsz
    have hg1 : g1 ≠ g := hno1 g1 (List.mem_cons_self _ _)
    have hno1' : ∀ g' ∈ l1, g' ≠ g := fun g' hg' => hno1 g' (List.mem_cons_of_mem _ hg')
    rw [List.cons_append]
    simp only [apply_field_groups, List.map_cons, List.sum_cons]
    rw [apply_field_bits_difs]
    rw [ih l2 hno1' hno2 _ _ _ (by rw [apply_field_bits_size]; omega)]
    rw [apply_field_bits_untouched _ _ _ _ _ _ _ _
      (fun k hk => by have := List.mem_range.mp hk; omega)]
    rw [List.drop_drop, ← Nat.add_assoc]

theorem countP_range8_popcount (x : Nat) :
    (List.range 8).countP (fun k => test_bit x k) = popcount x := by
  simp [popcount, test_bit_eq_testBit]

/-!
## Envelope lemmas for the ASCII header parser
-/


theorem take_until_star_append (pre post : List Char) (h : '*' ∉ pre) :
    take_until_star (pre ++ '*' :: post) = some ('*' :: post, pre) := by
  induction pre with
  | nil => simp [take_until_star]
  | cons c cs ih =>
    have hc : ¬ (c = '*') := fun he => h (he ▸ List.mem_cons_self _ _)
    have hcs : '*' ∉ cs := fun hm => h (List.mem_cons_of_mem _ hm)
    simp only [List.cons_append, take_until_star, hc, if_false, List.append_eq, ih hcs]

theorem header_record_parse_shape (T : Char) (payload : List Char) (h1 h2 : Char)
    (v : Nat) (hT : T ≠ '*') (hp : '*' ∉ payload) (hh : from_hex2 h1 h2 = some v) :
    header_record_parse ('$' :: T :: ',' :: (payload ++ '*' :: h1 :: h2 :: []))
      = if xor8 (T :: ',' :: payload) = v then .ok ([], (T, payload))
        else .error .badChecksum := by
  have hpre : '*' ∉ (T :: ',' :: payload) := by
    intro hm
    rcases List.mem_cons.mp hm with he | hm
    · exact hT he.symm
    · rcases List.mem_cons.mp hm with he | hm
      · exact absurd he.symm (by decide)
      · exact hp hm
  have hsplit : T :: ',' :: (payload ++ '*' :: h1 :: h2 :: [])
      = (T :: ',' :: payload) ++ '*' :: h1 :: h2 :: [] := by simp
  simp only [header_record_parse, hsplit, take_until_star_append _ _ hpre, hh]

theorem dispatch_record_unknown (t : Char) (data : List Char)
    (hu : t ∉ ['U', 'A', 'F', 'T', 'C', 'D', 'L']) :
    dispatch_record t data = .error .unknownRecord := by
  unfold dispatch_record
  split
  all_goals simp_all

theorem parse_record_shape (T : Char) (payload : List Char) (h1 h2 : Char)
    (v : Nat) (hT : T ≠ '*') (hp : '*' ∉ payload) (hh : from_hex2 h1 h2 = some v) :
    parse_record ('$' :: T :: ',' :: (payload ++ '*' :: h1 :: h2 :: []))
      = if xor8 (T :: ',' :: payload) = v then dispatch_record T payload
        else .error .badChecksum := by
  unfold parse_record
  rw [header_record_parse_shape T payload h1 h2 v hT hp hh]
  by_cases hx : xor8 (T :: ',' :: payload) = v
  · rw [if_pos hx, if_pos hx]
    rfl
  · rw [if_neg hx, if_neg hx]

/-!
## Claim theorems
-/

/-- C5.  Mask determinism: a successfully decoded frame consumes exactly
`3` bytes when its repeat byte is non-zero (necessarily `1`), and
`3 + nf + ns + nf + F + S + 1` bytes when it is a non-repeat frame, where
`nf = popcount(decode[0] & 0x3F)`, `ns = popcount((decode[0] >> 6) & 0x03)`,
and `F` resp. `S` are the total popcounts of the frame's field-flag and
scale-flag bytes (as recovered by `frame_flags`, which keeps absent flag
bytes as zero in their logical slots).  Consumption is measured as
input length minus remaining length. -/
theorem claim5_mask_determinism
    (engines cyls fflags : Nat) (prev : binary_record)
    (d1 d2 r : Nat) (i0 rest : List Nat) (out : binary_record)
    (h : parse_binary_record engines cyls fflags prev (d1 :: d2 :: r :: i0)
          = .ok (rest, out)) :
    (r ≠ 0 → (d1 :: d2 :: r :: i0).length = 3 + rest.length) ∧
    (r = 0 → ∃ ff sf,
      frame_flags (d1 :: d2 :: r :: i0) = some (ff, sf) ∧
      (d1 :: d2 :: r :: i0).length
        = (3 + popcount (d1 &&& 63) + popcount ((d1 >>> 6) &&& 3)
            + popcount (d1 &&& 63) + popcount_arr ff + popcount_arr sf + 1)
          + rest.length) := by
  have hd : d1 = d2 := by
    by_contra hne
    simp [parse_binary_record, hne] at h
  subst hd
  constructor
  · intro hr
    simp only [parse_binary_record, ne_eq, not_true_eq_false, if_false, hr,
      not_false_eq_true, if_true] at h
    by_cases hr1 : r > 1
    · simp [hr1] at h
    · simp only [hr1, if_false] at h
      simp only [Except.ok.injEq, Prod.mk.injEq] at h
      simp [← h.1]
      omega
  · intro hr
    subst hr
    have h' : parse_nonrepeat engines cyls fflags prev (d1 :: d1 :: 0 :: i0) i0 d1
        = .ok (rest, out) := by
      simpa [parse_binary_record] using h
    clear h
    cases h1 : parse_decode_bits d1 0 (List.range' 0 6) i0 (Array.mkArray 6 0) with
    | error e => simp only [parse_nonrepeat, h1] at h'; simp at h'
    | ok p1 =>
      obtain ⟨i1, ff⟩ := p1
      cases h2 : parse_decode_bits d1 6 (List.range' 6 2) i1 (Array.mkArray 2 0) with
      | error e => simp only [parse_nonrepeat, h1, h2] at h'; simp at h'
      | ok p2 =>
        obtain ⟨i2, sf⟩ := p2
        cases h3 : parse_decode_bits d1 0 (List.range' 0 6) i2 (Array.mkArray 6 0) with
        | error e => simp only [parse_nonrepeat, h1, h2, h3] at h'; simp at h'
        | ok p3 =>
          obtain ⟨i3, sg⟩ := p3
          simp only [parse_nonrepeat, h1, h2, h3] at h'
          simp only [parse_after_flags] at h'
          split at h'
          case isFalse => simp at h'
          case isTrue hcond =>
          cases h4 : take_bytes (popcount_arr ff) i3 with
          | error e => simp only [h4] at h'; simp at h'
          | ok p4 =>
            obtain ⟨i4, fd⟩ := p4
            simp only [h4] at h'
            cases h5 : take_bytes (popcount_arr sf) i4 with
            | error e => simp only [h5] at h'; simp at h'
            | ok p5 =>
              obtain ⟨i5, sd⟩ := p5
              simp only [h5] at h'
              cases h6 : apply_deltas engines cyls fflags prev ff sf sg fd sd with
              | error e => simp only [h6] at h'; simp at h'
              | ok out' =>
                simp only [h6] at h'
                cases i5 with
                | nil => simp only [verify_frame_checksum] at h'; simp at h'
                | cons c i6 =>
                  simp only [verify_frame_checksum] at h'
                  split at h'
                  · simp only [Except.ok.injEq, Prod.mk.injEq] at h'
                    obtain ⟨hrest, hout⟩ := h'
                    subst hrest
                    have l1 := parse_decode_bits_length d1 0 _ i0 _ i1 ff h1
                    have l2 := parse_decode_bits_length d1 6 _ i1 _ i2 sf h2
                    have l3 := parse_decode_bits_length d1 0 _ i2 _ i3 sg h3
                    rw [countP_lowbits] at l1 l3
                    rw [countP_highbits] at l2
                    have l4 := take_bytes_ok_length _ i3 i4 fd h4
                    have l5 := take_bytes_ok_length _ i4 (c :: i6) sd h5
                    refine ⟨ff, sf, ?_, ?_⟩
                    · simp [frame_flags, h1, h2]
                    · simp only [List.length_cons] at l1 l2 l3 l4 l5 ⊢
                      omega
                  · simp at h'

/-- Witness for C5 at the three-byte repeat frame `[5, 5, 1]`. -/
theorem claim5_mask_determinism_witness :
    ((1 : Nat) ≠ 0 → ([5, 5, 1] : List Nat).length = 3 + ([] : List Nat).length) ∧
      ((1 : Nat) = 0 → ∃ ff sf,
        frame_flags [5, 5, 1] = some (ff, sf) ∧
        ([5, 5, 1] : List Nat).length
          = (3 + popcount (5 &&& 63) + popcount ((5 >>> 6) &&& 3)
              + popcount (5 &&& 63) + popcount_arr ff + popcount_arr sf + 1)
            + ([] : List Nat).length) :=
  claim5_mask_determinism 1 6 0 (binary_record.new 1) 5 5 1 [] []
    (binary_record.new 1) (by rfl)

/-- C9.  The post-sample calculator is idempotent: whenever `calcstuff`
completes on a state `s` producing `t`, running it again on `t` produces
`t` unchanged — the engine loop recomputes the same `dif` values (it reads
only `naflags` and the data fields below index 6, which the RPM merge at
indices 41/42 does not touch), and the RPM high-byte merge is a no-op the
second time because `rpm_highbyte_rcdt` (index 42) has been zeroed. -/
theorem claim9_calcstuff_idempotent (engines cyls fflags : Nat) (s t : binary_record)
    (h : calcstuff engines cyls fflags s = .ok t) :
    calcstuff engines cyls fflags t = .ok t := by
  unfold calcstuff at h ⊢
  split at h
  · next hpre =>
    rw [if_pos hpre]
    rcases hce : calc_engines s.data s.naflags cyls (List.range engines) s.dif
      with _ | dif
    · simp only [hce] at h; cases h
    · simp only [hce] at h
      by_cases hrpm : has_rpm fflags
      · simp only [hrpm, if_true, Except.ok.injEq] at h
        subst h
        simp only
        have hag : ∀ k, k < 6 →
            (((s.data.setD 41 (wrap16 (s.data.getD 41 0 + wrap16 (s.data.getD 42 0 * 256)))).setD 42 0)).getD k 0
              = s.data.getD k 0 := by
          intro k hk
          rw [getD_setD_ne _ 42 k _ (by omega), getD_setD_ne _ 41 k _ (by omega)]
        have hce2 : calc_engines
            ((s.data.setD 41 (wrap16 (s.data.getD 41 0 + wrap16 (s.data.getD 42 0 * 256)))).setD 42 0)
            s.naflags cyls (List.range engines) dif = some dif := by
          rw [calc_engines_congr _ s.data s.naflags cyls hag]
          exact calc_engines_idem s.data s.naflags cyls _ (List.nodup_range engines) s.dif dif hce
        rw [hce2]
        simp only [hrpm, if_true, Except.ok.injEq]
        set D := (s.data.setD 41 (wrap16 (s.data.getD 41 0 + wrap16 (s.data.getD 42 0 * 256)))).setD 42 0 with hD
        have h42 : D.getD 42 0 = 0 := getD_setD_zero _ 42
        have hv2 : wrap16 (D.getD 41 0 + wrap16 (D.getD 42 0 * 256)) = wrap16 (D.getD 41 0) := by
          rw [h42]
          norm_num [wrap16_zero]
        have hdata : (D.setD 41 (wrap16 (D.getD 41 0 + wrap16 (D.getD 42 0 * 256)))).setD 42 0 = D := by
          have h1 : D.setD 41 (wrap16 (D.getD 41 0 + wrap16 (D.getD 42 0 * 256))) = D := by
            apply setD_eq_of_getD
            intro hlt
            rw [hv2]
            have hlt' : 41 < s.data.size := by
              have hsz : D.size = s.data.size := by
                rw [hD, Array.size_setD, Array.size_setD]
              omega
            have h41 : D.getD 41 0 = wrap16 (s.data.getD 41 0 + wrap16 (s.data.getD 42 0 * 256)) := by
              rw [hD, getD_setD_ne _ 42 41 _ (by omega)]
              exact getD_setD_self _ _ _ hlt'
            rw [h41, wrap16_wrap16, ← h41]
          rw [h1]
          apply setD_eq_of_getD
          intro _
          exact h42
        rw [hdata]
      · simp only [hrpm, Bool.false_eq_true, if_false, Except.ok.injEq] at h
        subst h
        simp only
        have hce2 : calc_engines s.data s.naflags cyls (List.range engines) dif = some dif :=
          calc_engines_idem s.data s.naflags cyls _ (List.nodup_range engines) s.dif dif hce
        rw [hce2]
        simp only [hrpm, Bool.false_eq_true, if_false]
  · cases h

/-- Witness for C9 on the freshly initialised single-engine state, which is
a fixed point of `calcstuff`. -/
theorem claim9_calcstuff_idempotent_witness :
    calcstuff 1 6 0 (binary_record.new 1) = .ok (binary_record.new 1) ∧
      calcstuff 1 6 0 (binary_record.new 1) = .ok (binary_record.new 1) :=
  ⟨by rfl, claim9_calcstuff_idempotent 1 6 0 (binary_record.new 1)
    (binary_record.new 1) (by rfl)⟩

/-- C10.  In the field-delta loop of `parse_binary_record` (embodied by
`apply_field_groups`, applied to the six groups exactly as the decoder does),
every touched field `g*8 + b` is updated by the delta byte at the
mask-determined position `field_dif_position ff g b` of the `field_dif` run,
interpreted as the non-negative integer cast of the byte
(`u8` zero-extended via `as i16`, never sign-extended), and the direction of
the update is `subtract` exactly when bit `b` of `sign_flags[g]` is set —
the high bit of the delta byte plays no role in the direction. -/
theorem claim10_field_delta_unsigned_and_sign
    (ff sf : Array Nat) (data : Array Int) (na : Array Nat) (difs : List Nat)
    (g b : Nat) (hg : g < 6) (hb : b < 8)
    (hfb : test_bit (ff.getD g 0) b) (hsz : g * 8 + b < data.size) :
    ((apply_field_groups ff sf (List.range 6) data na difs).1).getD (g * 8 + b) 0
      = wrap16 (data.getD (g * 8 + b) 0
          + (if test_bit (sf.getD g 0) b then -(difs.getD (field_dif_position ff g b) 0 : Int)
             else (difs.getD (field_dif_position ff g b) 0 : Int))) := by
  have hsplit : List.range 6 = List.range g ++ g :: List.range' (g + 1) (5 - g) := by
    interval_cases g <;> rfl
  rw [hsplit]
  rw [apply_field_groups_touched ff sf g b hb hfb (List.range g) _
    (fun g' hg' => by have := List.mem_range.mp hg'; omega)
    (fun g' hg' => by have := (List.mem_range'_1.mp hg').1; omega)
    data na difs hsz]
  rw [headD_drop_eq_getD]
  have hmap : ((List.range g).map
        (fun g' => (List.range 8).countP (fun k => test_bit (ff.getD g' 0) k))).sum
      = ((List.range g).map (fun g' => popcount (ff.getD g' 0))).sum := by
    congr 1
    exact List.map_congr_left (fun g' _ => countP_range8_popcount _)
  rw [hmap]
  unfold apply_one_field field_dif_position
  split
  · rw [sub_eq_add_neg]
  · rfl

/-- Witness for C10: group 0, bit 0, sign clear, delta byte `0x10` applied
to a 48-field vector holding `0xF0` everywhere. -/
theorem claim10_field_delta_unsigned_and_sign_witness :
    ((apply_field_groups #[1, 0, 0, 0, 0, 0] #[0, 0, 0, 0, 0, 0] (List.range 6)
        (Array.mkArray 48 (240 : Int)) (Array.mkArray 6 0) [16]).1).getD (0 * 8 + 0) 0
      = wrap16 ((Array.mkArray 48 (240 : Int)).getD (0 * 8 + 0) 0
          + (if test_bit ((#[0, 0, 0, 0, 0, 0] : Array Nat).getD 0 0) 0 then
               -(([16] : List Nat).getD (field_dif_position #[1, 0, 0, 0, 0, 0] 0 0) 0 : Int)
             else (([16] : List Nat).getD (field_dif_position #[1, 0, 0, 0, 0, 0] 0 0) 0 : Int))) :=
  claim10_field_delta_unsigned_and_sign #[1, 0, 0, 0, 0, 0] #[0, 0, 0, 0, 0, 0]
    (Array.mkArray 48 (240 : Int)) (Array.mkArray 6 0) [16] 0 0
    (by decide) (by decide) (by decide) (by decide)

/-- C8 (amended).  For a well-formed record line
`'$' T ',' payload '*' H1 H2` (with no `'*'` in `T` or `payload` and `H1 H2`
a hex pair of value `v`): `parse_record` succeeds iff the XOR of the bytes
between `'$'` and `'*'` (the type letter, the comma and the payload) equals
`v` *and* the type letter's payload sub-parser accepts the payload (which
entails `T ∈ {U,A,F,T,C,D,L}`); a checksum mismatch yields the checksum
error, and — when the checksum matches — an unknown type letter yields the
unknown-record error. -/
theorem claim8_envelope_round_trip (T : Char) (payload : List Char) (h1 h2 : Char)
    (v : Nat) (hT : T ≠ '*') (hp : '*' ∉ payload) (hh : from_hex2 h1 h2 = some v) :
    ((parse_record ('$' :: T :: ',' :: (payload ++ '*' :: h1 :: h2 :: []))).isOk = true
        ↔ (xor8 (T :: ',' :: payload) = v
            ∧ (dispatch_record T payload).isOk = true))
      ∧ (xor8 (T :: ',' :: payload) ≠ v →
          parse_record ('$' :: T :: ',' :: (payload ++ '*' :: h1 :: h2 :: []))
            = .error .badChecksum)
      ∧ (xor8 (T :: ',' :: payload) = v → T ∉ ['U', 'A', 'F', 'T', 'C', 'D', 'L'] →
          parse_record ('$' :: T :: ',' :: (payload ++ '*' :: h1 :: h2 :: []))
            = .error .unknownRecord) := by
  rw [parse_record_shape T payload h1 h2 v hT hp hh]
  refine ⟨?_, ?_, ?_⟩
  · by_cases hx : xor8 (T :: ',' :: payload) = v
    · simp [hx]
    · simp [hx, Except.isOk, Except.toBool]
  · intro hx
    rw [if_neg hx]
  · intro hx hu
    rw [if_pos hx, dispatch_record_unknown T payload hu]

/-- Counterexample to C8 as stated.  The claim's equivalence says a
well-formed line succeeds iff the checksum matches and the type letter is
known.  For the concrete line `$C,*6F` the checksum matches
(`xor8 "C," = 0x6F`) and `'C'` is a known type, yet `parse_record` fails,
because the `C` payload sub-parser rejects the empty payload
(`ErrorKind::BadNumber`): sub-parser success is an additional requirement
the claim omits. -/
theorem claim8_counterexample_subparser_required :
    ¬ (((parse_record ['$', 'C', ',', '*', '6', 'F']).isOk = true)
        ↔ (xor8 ['C', ','] = 111 ∧ 'C' ∈ ['U', 'A', 'F', 'T', 'C', 'D', 'L'])) := by
  decide

/-- Witness for C8's amended theorem at the repository's own test vector
`$L, 49*4D`. -/
theorem claim8_envelope_round_trip_witness :
    ((parse_record ('$' :: 'L' :: ',' :: ([' ', '4', '9'] ++ '*' :: '4' :: 'D' :: []))).isOk = true
        ↔ (xor8 ('L' :: ',' :: [' ', '4', '9']) = 77
            ∧ (dispatch_record 'L' [' ', '4', '9']).isOk = true))
      ∧ (xor8 ('L' :: ',' :: [' ', '4', '9']) ≠ 77 →
          parse_record ('$' :: 'L' :: ',' :: ([' ', '4', '9'] ++ '*' :: '4' :: 'D' :: []))
            = .error .badChecksum)
      ∧ (xor8 ('L' :: ',' :: [' ', '4', '9']) = 77 →
          'L' ∉ ['U', 'A', 'F', 'T', 'C', 'D', 'L'] →
          parse_record ('$' :: 'L' :: ',' :: ([' ', '4', '9'] ++ '*' :: '4' :: 'D' :: []))
            = .error .unknownRecord) :=
  claim8_envelope_round_trip 'L' [' ', '4', '9'] '4' 'D' 77
    (by decide) (by decide) (by rfl)

/-- C1.  The claim states that a non-zero field-level delta byte *clears*
`naflags[idx]` and a zero delta *sets* it.  The code
(src/src/data.rs lines 281–285) does the opposite: on the spec's own seed
scenario 7 (initial single-engine state, frame `decode = 0x01`, `repeat = 0`,
`field_flags = [0x01]`, `sign_flags = [0x00]`, `field_dif = [0x10]`,
checksum `0xED`), the decoder produces `egt[0] = 0x0100` as the scenario
expects, but leaves the NA bit of field 0 *set* where the claim (and the
scenario) require it clear.  This contradicts the scale-delta path and the
RPM path of the same function, which clear NA on a non-zero delta, and
`calcstuff`, which treats a clear NA bit as "value available". -/
theorem claim1_field_na_updates_inverted :
    (parse_binary_record 1 6 0 (binary_record.new 1) [1, 1, 0, 1, 0, 16, 237]).toOption.map
        (fun p => (test_bit (p.2.naflags.getD 0 0) 0, p.2.data.getD 0 0, p.1))
      = some (true, 256, []) := by
  rfl

/-- C2.  The claim states that `dif[1]` for engine 1 is computed over the
EGT values of field group 3 (flat indices `TWINJUMP + i`).  The code
(src/src/data.rs line 118–119) instead reads `self.data.egt[idx]`, where
`egt` is the `[i16; 6]` field of `data_record`: for a twin-engine
configuration (`engines = 2`, `cyls = 6`) on a freshly initialised state
(all NA bits clear) engine 1's first cylinder gives `idx = 24` and
`egt[24]` is an out-of-bounds panic, modelled here as `DecodeErr.panicked`,
so no `dif[1]` is produced at all. -/
theorem claim2_twin_engine_egt_out_of_bounds :
    calcstuff 2 6 0 (binary_record.new 2) = .error .panicked := by
  rfl

/-- C4.  Repeat identity: for every prior state and every frame whose
repeat byte is 1 (and whose two decode bytes agree, as every frame requires),
`parse_binary_record` returns the prior state unchanged, consumes exactly the
three header bytes, and — since the result is `ok` for *every* suffix
`rest`, including the empty one — reads no mask, delta, or checksum bytes. -/
theorem claim4_repeat_frame_identity
    (engines cyls fflags : Nat) (prev : binary_record) (d : Nat) (rest : List Nat) :
    parse_binary_record engines cyls fflags prev (d :: d :: 1 :: rest)
      = .ok (rest, prev) := by
  simp [parse_binary_record]

/-- C6.  If the two decode-flag bytes of a frame header differ, the decoder
refuses the frame with the `BadFrame` decode error (the
"mismatched decode bytes" rejection in `parse_data_header`,
src/src/data.rs lines 198–200) instead of decoding it. -/
theorem claim6_mismatched_decode_bytes
    (engines cyls fflags : Nat) (prev : binary_record) (a b r : Nat)
    (rest : List Nat) (h : a ≠ b) :
    parse_binary_record engines cyls fflags prev (a :: b :: r :: rest)
      = .error .badFrame := by
  simp [parse_binary_record, h]

/-- Witness for C6 at `a = 1`, `b = 2`. -/
theorem claim6_mismatched_decode_bytes_witness :
    (1 : Nat) ≠ 2 ∧
      parse_binary_record 1 6 0 (binary_record.new 1) [1, 2, 0]
        = .error .badFrame :=
  ⟨by decide, claim6_mismatched_decode_bytes 1 6 0 (binary_record.new 1) 1 2 0 [] (by decide)⟩

/-- C7.  A frame whose repeat byte is greater than 1 makes the decoder
signal `Unsupported` (the `unimplemented!()` at src/src/data.rs lines
249–252) instead of decoding the frame. -/
theorem claim7_repeat_above_one_unsupported
    (engines cyls fflags : Nat) (prev : binary_record) (d r : Nat)
    (rest : List Nat) (h : r > 1) :
    parse_binary_record engines cyls fflags prev (d :: d :: r :: rest)
      = .error .unsupported := by
  have hr : r ≠ 0 := by omega
  simp [parse_binary_record, hr, h]

/-- C3 (amended).  The source assert is
`assert!(scale_flags[1] == 0 || num_engines(config) == 1)`
(src/src/data.rs line 262): the constraint binds *multi*-engine
configurations, not single-engine ones.  Amended claim: for every frame
decoded under a configuration with `num_engines(config) ≠ 1`, if the second
scale-flags byte parsed from the frame is non-zero then
`parse_binary_record` fails with `BadFrame`. -/
theorem claim3_multi_engine_scale1_bad_frame
    (engines cyls fflags : Nat) (prev : binary_record) (d : Nat)
    (i0 i1 i2 i3 : List Nat) (ff sf sg : Array Nat)
    (hff : parse_decode_bits d 0 (List.range' 0 6) i0 (Array.mkArray 6 0) = .ok (i1, ff))
    (hsf : parse_decode_bits d 6 (List.range' 6 2) i1 (Array.mkArray 2 0) = .ok (i2, sf))
    (hsg : parse_decode_bits d 0 (List.range' 0 6) i2 (Array.mkArray 6 0) = .ok (i3, sg))
    (hs1 : sf.getD 1 0 ≠ 0) (he : engines ≠ 1) :
    parse_binary_record engines cyls fflags prev (d :: d :: 0 :: i0)
      = .error .badFrame := by
  have hcond : ¬ (sf.getD 1 0 = 0 ∨ engines = 1) := by
    rintro (h | h)
    · exact hs1 h
    · exact he h
  simp only [parse_binary_record, parse_nonrepeat, hff, hsf, hsg, ne_eq,
    not_true_eq_false, if_false]
  rw [parse_after_flags, if_neg hcond]

/-- Witness for C3's amended theorem: a twin-engine frame whose second
scale-flags byte is `0x01` is rejected with `BadFrame`. -/
theorem claim3_multi_engine_scale1_bad_frame_witness :
    parse_decode_bits 128 0 (List.range' 0 6) [1, 2, 253] (Array.mkArray 6 0)
        = .ok ([1, 2, 253], Array.mkArray 6 0) ∧
      parse_decode_bits 128 6 (List.range' 6 2) [1, 2, 253] (Array.mkArray 2 0)
        = .ok ([2, 253], #[0, 1]) ∧
      parse_decode_bits 128 0 (List.range' 0 6) [2, 253] (Array.mkArray 6 0)
        = .ok ([2, 253], Array.mkArray 6 0) ∧
      (#[0, 1] : Array Nat).getD 1 0 ≠ 0 ∧ (2 : Nat) ≠ 1 ∧
      parse_binary_record 2 4 0 (binary_record.new 2) [128, 128, 0, 1, 2, 253]
        = .error .badFrame :=
  ⟨by rfl, by rfl, by rfl, by decide, by decide,
    claim3_multi_engine_scale1_bad_frame 2 4 0 (binary_record.new 2) 128
      [1, 2, 253] [1, 2, 253] [2, 253] [2, 253] (Array.mkArray 6 0) #[0, 1]
      (Array.mkArray 6 0) (by rfl) (by rfl) (by rfl) (by decide) (by decide)⟩

/-- Counterexample to C3 as stated.  The claim asserts that under a
single-engine configuration a non-zero `scale_flags[1]` makes
`parse_binary_record` fail.  The concrete single-engine frame
`[0x80, 0x80, 0x00, 0x01, 0x02, 0xFD]` (decode byte `0x80`: only the
second scale-flag byte present, value `0x01`; one scale delta `0x02`;
valid checksum) is *accepted* by the decoder even though its
`scale_flags[1] = 1 ≠ 0`, because the source assert
`scale_flags[1] == 0 || num_engines(config) == 1` is satisfied by
`num_engines == 1` alone. -/
theorem claim3_counterexample_single_engine_scale1_accepted :
    (parse_binary_record 1 4 0 (binary_record.new 1) [128, 128, 0, 1, 2, 253]).isOk
        = true ∧
      (frame_flags [128, 128, 0, 1, 2, 253]).map (fun p => p.2.getD 1 0)
        = some 1 := by
  exact ⟨rfl, rfl⟩

/-- Witness for C7 at `r = 2`. -/
theorem claim7_repeat_above_one_unsupported_witness :
    (2 : Nat) > 1 ∧
      parse_binary_record 1 6 0 (binary_record.new 1) [0, 0, 2]
        = .error .unsupported :=
  ⟨by decide, claim7_repeat_above_one_unsupported 1 6 0 (binary_record.new 1) 0 2 [] (by decide)⟩

end Jpi
